import Mathlib

/-!
# Verification of the caiatech-datalab export engine

Shallow embedding of `backend/internal/models/export.go`: the pair deriver
(`derivePairs`, `findPrevRole`), the context renderer (`renderContext`,
`roleLabel`), the item pair deriver (`derivePairsFromItemData`) and the
streaming export coordinator (`StreamExport` and the per-mode stream
functions).  Go strings become `String`, Go slices become `List`,
`json.RawMessage` values become an explicit `Json` inductive (with `Option
Json` standing for a parse result, `none` = invalid JSON bytes), and the
database plus output sink become an explicit environment and an accumulated
output list paired with an optional error message.
-/

namespace Datalab

/-- One conversation message, as in `Message` (models_types).  The Go struct
also carries `Name` and `Meta`; neither is read by any export code path, so
they are omitted from the embedding (their JSON decoding constraints for
dataset items are reflected in `decodeMessage` below). -/
structure Message where
  role : String
  content : String
deriving DecidableEq, Repr

/-- `ExportOptions` from export.go.  Go field `Type` is `typ` here (keyword).
`DatasetID` is an `Int` (`0` = any dataset); `ContextTurns` and `MaxExamples`
are `Nat` (the HTTP layer clamps negatives to `0`, and the engine treats any
non-positive value exactly like `0`: `contextTurns > 0` / `MaxExamples > 0`
are the only tests performed on them). -/
structure ExportOptions where
  typ : String := ""
  datasetID : Int := 0
  split : String := ""
  status : String := ""
  includeSystem : Bool := false
  context : String := ""
  contextTurns : Nat := 0
  roleStyle : String := ""
  maxExamples : Nat := 0
deriving DecidableEq, Repr

/-- A derived `(prompt, completion)` pair: `ExportPair` in export.go. -/
structure ExportPair where
  user : String
  assistant : String
deriving DecidableEq, Repr

/-- Go's `strings.TrimSpace` (restricted to ASCII whitespace, the only kind
appearing in this development): drop whitespace from both ends.  Defined by
structural recursion over the character list so that it evaluates inside the
kernel (`String.trim` itself is well-founded and does not). -/
def trimSpace (s : String) : String :=
  ⟨((s.data.dropWhile Char.isWhitespace).reverse.dropWhile Char.isWhitespace).reverse⟩

/-- `strings.ToLower`, by character mapping (kernel-evaluable counterpart of
`String.toLower`). -/
def strToLower (s : String) : String :=
  ⟨s.data.map Char.toLower⟩

/-- Role of the message at index `i`, `""` when out of range. -/
def roleAt (msgs : List Message) (i : Nat) : String :=
  ((msgs.get? i).map Message.role).getD ""

/-- Content of the message at index `i`, `""` when out of range. -/
def contentAt (msgs : List Message) (i : Nat) : String :=
  ((msgs.get? i).map Message.content).getD ""

/-- `findPrevRole(msgs, start, role)` from export.go scans indices
`start, start-1, ..., 0` and returns the first index whose message has the
given role, `-1` if none.  Every call site passes `start = i-1`, so we embed
it with an exclusive upper bound: `findPrevRole msgs i role` scans
`i-1, ..., 0`, and `-1` becomes `none`. -/
def findPrevRole (msgs : List Message) : Nat → String → Option Nat
  | 0, _ => none
  | j + 1, role => if roleAt msgs j == role then some j else findPrevRole msgs j role

/-- `roleLabel` from export.go: a Go `switch` on the role string whose
`default` arm (any role other than `system`/`assistant`) yields `"User: "`. -/
def roleLabel (r : String) : String :=
  if r == "system" then "System: "
  else if r == "assistant" then "Assistant: "
  else "User: "

/-- The backward walk inside `renderContext`: starting at index `j` and
needing `need` more user-role messages (counting the one at `j` if it is a
user message), return the index (as `Int`) where the walk breaks, or `-1`
when index `0` is passed without the count being reached.  This mirrors the
Go loop `j := userIdx; for j >= 0 { if user { turns++; if turns >=
contextTurns { break } }; j-- }` with `need = contextTurns - turns`. -/
def ctxStartAux (msgs : List Message) : Nat → Nat → Int
  | need, 0 => if roleAt msgs 0 == "user" && need ≤ 1 then 0 else -1
  | need, j + 1 =>
    let isU := roleAt msgs (j + 1) == "user"
    if isU && need ≤ 1 then ((j + 1 : Nat) : Int)
    else ctxStartAux msgs (if isU then need - 1 else need) j

/-- The `start` index computed by `renderContext`: `0` when
`contextTurns = 0`; otherwise the break index of the backward walk when that
is positive, else `0` (the Go code only assigns `start = j` under `j > 0`). -/
def ctxStart (msgs : List Message) (userIdx contextTurns : Nat) : Nat :=
  if 0 < contextTurns then
    let j := ctxStartAux msgs contextTurns userIdx
    if 0 < j then j.toNat else 0
  else 0

/-- The skip test of the rendering loop in `renderContext`: the message at
index `i` is kept iff it exists, is not a system message hidden by
`!includeSystem`, and has non-empty trimmed content. -/
def eligible (msgs : List Message) (includeSystem : Bool) (i : Nat) : Bool :=
  match msgs.get? i with
  | none => false
  | some m => !(m.role == "system" && !includeSystem) && !(trimSpace m.content == "")

/-- The line written for a retained message: trimmed content, prefixed by
`roleLabel` unless `roleStyle` is `"plain"` (the Go `switch` treats every
other style string, `"labels"` included, with the labelled `default` arm). -/
def lineOf (msgs : List Message) (roleStyle : String) (i : Nat) : String :=
  if roleStyle == "plain" then trimSpace (contentAt msgs i)
  else roleLabel (roleAt msgs i) ++ trimSpace (contentAt msgs i)

/-- The `strings.Builder` loop of `renderContext` over a list of indices:
skip ineligible indices, and write `"\n"` before each line except when the
builder is still empty. -/
def renderBody (msgs : List Message) (includeSystem : Bool) (roleStyle : String)
    (idxs : List Nat) : String :=
  idxs.foldl
    (fun b i =>
      if eligible msgs includeSystem i then
        if b == "" then lineOf msgs roleStyle i else b ++ "\n" ++ lineOf msgs roleStyle i
      else b)
    ""

/-- `renderContext(msgs, userIdx, includeSystem, contextTurns, roleStyle)`
from export.go: render the messages from the computed start index through
`userIdx` inclusive. -/
def renderContext (msgs : List Message) (userIdx : Nat) (includeSystem : Bool)
    (contextTurns : Nat) (roleStyle : String) : String :=
  let start := ctxStart msgs userIdx contextTurns
  renderBody msgs includeSystem roleStyle (List.range' start (userIdx + 1 - start))

/-- `derivePairs(msgs, opts)` from export.go: one forward pass over the
message indices; each assistant message with non-empty trimmed content that
has a preceding user message yields a pair whose prompt depends on the
context mode, and pairs with an empty prompt are discarded. -/
def derivePairs (msgs : List Message) (opts : ExportOptions) : List ExportPair :=
  let contextMode := if opts.context == "" then "none" else opts.context
  let roleStyle := if opts.roleStyle == "" then "labels" else opts.roleStyle
  (List.range msgs.length).filterMap fun i =>
    if roleAt msgs i == "assistant" then
      let assistantText := trimSpace (contentAt msgs i)
      if assistantText == "" then none
      else
        match findPrevRole msgs i "user" with
        | none => none
        | some userIdx =>
          let prompt :=
            if contextMode == "none" then trimSpace (contentAt msgs userIdx)
            else if contextMode == "window" then
              renderContext msgs userIdx opts.includeSystem opts.contextTurns roleStyle
            else if contextMode == "full" then
              renderContext msgs userIdx opts.includeSystem 0 roleStyle
            else trimSpace (contentAt msgs userIdx)
          if prompt == "" then none else some ⟨prompt, assistantText⟩
    else none

/-! ## Dataset item data (`derivePairsFromItemData`)

Item `data` is stored as raw JSON bytes.  We embed a parsed JSON value as the
inductive `Json`; a stored blob is an `Option Json` (`none` = bytes that are
not valid JSON).  Number contents never influence the export logic, so
numbers carry no payload. -/

inductive Json where
  | null : Json
  | bool (b : Bool) : Json
  | num : Json
  | str (s : String) : Json
  | arr (elems : List Json) : Json
  | obj (fields : List (String × Json)) : Json

/-- Last-wins lookup of a key in a JSON object's field list, mirroring Go's
`json.Unmarshal` into `map[string]json.RawMessage` (later duplicate keys
overwrite earlier ones). -/
def lookupField (fields : List (String × Json)) (k : String) : Option Json :=
  (fields.filterMap fun f => if f.1 == k then some f.2 else none).getLast?

/-- Go `json.Unmarshal` of a raw value into a `string` variable: succeeds on
a JSON string, succeeds on `null` leaving the zero value `""`, errors on
everything else. -/
def decodeGoString : Json → Option String
  | .str s => some s
  | .null => some ""
  | _ => none

/-- Decoding one element of a `messages` array into a Go `Message` struct:
`null` leaves the zero struct; an object decodes its `role`, `content` and
`name` fields as Go strings (absent fields keep the zero value `""`, and
`meta`, a `json.RawMessage`, accepts anything); any other value errors.
(Go's case-insensitive fallback for key matching is not modelled: all keys
of interest here are lower-case.) -/
def decodeMessage : Json → Option Message
  | .null => some ⟨"", ""⟩
  | .obj fs => do
    let dec := fun (k : String) =>
      match lookupField fs k with
      | none => some ""
      | some v => decodeGoString v
    let r ← dec "role"
    let c ← dec "content"
    let _ ← dec "name"
    pure ⟨r, c⟩
  | _ => none

/-- Go `json.Unmarshal` of a raw value into `[]Message`: `null` leaves the
nil slice, an array decodes element-wise, anything else errors. -/
def decodeMessages : Json → Option (List Message)
  | .null => some []
  | .arr xs => xs.mapM decodeMessage
  | _ => none

/-- The single-turn probe of `derivePairsFromItemData`: when both `user` and
`assistant` keys are present, both decode as Go strings, and both trim to
non-empty, the produced pair; `none` otherwise (in which case the Go code
falls through to the `messages` shape). -/
def singleTurnPair (fields : List (String × Json)) : Option ExportPair :=
  (lookupField fields "user").bind fun uv =>
    (lookupField fields "assistant").bind fun av =>
      (decodeGoString uv).bind fun u =>
        (decodeGoString av).bind fun a =>
          let u := trimSpace u
          let a := trimSpace a
          if u != "" && a != "" then some ⟨u, a⟩ else none

/-- `derivePairsFromItemData(data, opts)` from export.go.  Unmarshalling the
raw bytes into `map[string]json.RawMessage` fails on invalid JSON and on any
non-object value (yielding nil); JSON `null` unmarshals to a nil map, which
also ends in the final `return nil`, so `.null` maps to `[]` as well.  The
single-turn `{user, assistant}` shape is tried first; otherwise a `messages`
key is decoded into a message slice and handed to `derivePairs` (a decode
error or an empty slice yields nil). -/
def derivePairsFromItemData (data : Option Json) (opts : ExportOptions) : List ExportPair :=
  match data with
  | none => []
  | some (.obj fields) =>
    match singleTurnPair fields with
    | some p => [p]
    | none =>
      match lookupField fields "messages" with
      | none => []
      | some mv =>
        match decodeMessages mv with
        | none => []
        | some [] => []
        | some msgs => derivePairs msgs opts
  | some _ => []

/-! ## Streaming export (`StreamExport` and the per-mode stream functions)

The database becomes an explicit environment: a dataset lookup (`GetDataset`,
`none` modelling its not-found error), the `conversations` table rows with
their already-loaded message sequences, and the `dataset_items` table rows
with their data already parsed (`Option Json`).  Both row lists are assumed
stored in ascending-id order, matching the `ORDER BY id ASC` of every query.
The output sink becomes an accumulated list of output records, and a stream
function returns that list together with an optional error message (`none` =
the Go function returned nil). -/

/-- A dataset as read by the coordinator; only `Kind` is consulted. -/
structure Dataset where
  kind : String
deriving DecidableEq, Repr

/-- One `conversations` row joined with its ordered messages (the columns
selected by `conversationsFilterQuery` plus `loadMessages`). -/
structure ConvRow where
  id : Int
  datasetID : Int
  split : String
  status : String
  tags : List String
  source : String
  notes : String
  messages : List Message
deriving DecidableEq, Repr

/-- One `dataset_items` row: id, owning dataset, source_ref and the parsed
`data` blob (`none` = bytes that are not valid JSON). -/
structure ItemRow where
  id : Int
  datasetID : Int
  sourceRef : String
  data : Option Json

/-- One record written to the sink, one per output line.  `conv` carries the
fields of the encoded conversation object; `raw` is the byte-for-byte
pass-through of an item's data; `meta` the `{id, dataset_id, source_ref,
data}` wrapper. -/
inductive OutRec where
  | pair (p : ExportPair) : OutRec
  | conv (id : Int) (split status : String) (tags : List String)
      (source notes : String) (messages : List Message) : OutRec
  | raw (data : Option Json) : OutRec
  | meta (id datasetID : Int) (sourceRef : String) (data : Option Json) : OutRec

/-- The storage side of one export run. -/
structure Env where
  getDataset : Int → Option Dataset
  conversations : List ConvRow
  items : List ItemRow

/-- The WHERE clause built by `conversationsFilterQuery`: exact status match,
dataset filter only when `DatasetID > 0`, split filter unless empty or
`"all"`. -/
def convFilter (opts : ExportOptions) (c : ConvRow) : Bool :=
  c.status == opts.status
    && (!(opts.datasetID > 0) || c.datasetID == opts.datasetID)
    && (opts.split == "" || opts.split == "all" || c.split == opts.split)

/-- Rows yielded by the conversation cursor, in stored (ascending-id) order. -/
def convQuery (env : Env) (opts : ExportOptions) : List ConvRow :=
  env.conversations.filter (convFilter opts)

/-- Rows yielded by the dataset-item cursor (`WHERE dataset_id = $1`). -/
def itemQuery (env : Env) (opts : ExportOptions) : List ItemRow :=
  env.items.filter fun it => it.datasetID == opts.datasetID

/-- The cap test shared by every mode: `opts.MaxExamples > 0 && count >=
opts.MaxExamples`. -/
def capReached (maxExamples count : Nat) : Bool :=
  maxExamples > 0 && count ≥ maxExamples

/-- The inner loop of `streamPairs` / `streamPairsFromDatasetItems` over one
record's derived pairs: encode each pair, bump the counter, and stop the
whole stream (`return nil`) as soon as the cap is reached.  Returns the
records written, the new counter, and whether the stream stopped. -/
def emitPairsCapped (maxExamples : Nat) : List ExportPair → Nat → List OutRec × Nat × Bool
  | [], count => ([], count, false)
  | p :: ps, count =>
    let count' := count + 1
    if capReached maxExamples count' then ([.pair p], count', true)
    else
      let r := emitPairsCapped maxExamples ps count'
      (.pair p :: r.1, r.2.1, r.2.2)

/-- The row loop of `streamPairs`, threading the pair counter. -/
def streamPairsGo (opts : ExportOptions) : List ConvRow → Nat → List OutRec
  | [], _ => []
  | c :: rest, count =>
    let r := emitPairsCapped opts.maxExamples (derivePairs c.messages opts) count
    if r.2.2 then r.1 else r.1 ++ streamPairsGo opts rest r.2.1

/-- `streamPairs(db, w, opts)` from export.go. -/
def streamPairs (env : Env) (opts : ExportOptions) : List OutRec × Option String :=
  (streamPairsGo opts (convQuery env opts) 0, none)

/-- The row loop of `streamPairsFromDatasetItems`, threading the counter. -/
def streamItemPairsGo (opts : ExportOptions) : List ItemRow → Nat → List OutRec
  | [], _ => []
  | it :: rest, count =>
    let r := emitPairsCapped opts.maxExamples (derivePairsFromItemData it.data opts) count
    if r.2.2 then r.1 else r.1 ++ streamItemPairsGo opts rest r.2.1

/-- `streamPairsFromDatasetItems(db, w, opts)` from export.go: guards on a
concrete dataset id, then derives pairs from each item's data blob. -/
def streamPairsFromDatasetItems (env : Env) (opts : ExportOptions) : List OutRec × Option String :=
  if opts.datasetID ≤ 0 then ([], some "dataset_id is required for items export")
  else (streamItemPairsGo opts (itemQuery env opts) 0, none)

/-- The encoded object of one conversation row (`streamConversations` body). -/
def convRecord (c : ConvRow) : OutRec :=
  .conv c.id c.split c.status c.tags c.source c.notes c.messages

/-- The row loop of `streamConversations`: one record per row, `break` once
the cap is reached after emitting. -/
def streamConvsGo (opts : ExportOptions) : List ConvRow → Nat → List OutRec
  | [], _ => []
  | c :: rest, count =>
    convRecord c ::
      (if capReached opts.maxExamples (count + 1) then []
       else streamConvsGo opts rest (count + 1))

/-- `streamConversations(db, w, opts)` from export.go. -/
def streamConversations (env : Env) (opts : ExportOptions) : List OutRec × Option String :=
  (streamConvsGo opts (convQuery env opts) 0, none)

/-- The row loop of `streamDatasetItemsRaw`: write each item's data verbatim,
`break` once the cap is reached. -/
def streamItemsRawGo (opts : ExportOptions) : List ItemRow → Nat → List OutRec
  | [], _ => []
  | it :: rest, count =>
    .raw it.data ::
      (if capReached opts.maxExamples (count + 1) then []
       else streamItemsRawGo opts rest (count + 1))

/-- `streamDatasetItemsRaw(db, w, opts)` from export.go. -/
def streamDatasetItemsRaw (env : Env) (opts : ExportOptions) : List OutRec × Option String :=
  if opts.datasetID ≤ 0 then ([], some "dataset_id is required for items export")
  else (streamItemsRawGo opts (itemQuery env opts) 0, none)

/-- The row loop of `streamDatasetItemsWithMeta`. -/
def streamItemsMetaGo (opts : ExportOptions) : List ItemRow → Nat → List OutRec
  | [], _ => []
  | it :: rest, count =>
    .meta it.id it.datasetID it.sourceRef it.data ::
      (if capReached opts.maxExamples (count + 1) then []
       else streamItemsMetaGo opts rest (count + 1))

/-- `streamDatasetItemsWithMeta(db, w, opts)` from export.go. -/
def streamDatasetItemsWithMeta (env : Env) (opts : ExportOptions) : List OutRec × Option String :=
  if opts.datasetID ≤ 0 then ([], some "dataset_id is required for items export")
  else (streamItemsMetaGo opts (itemQuery env opts) 0, none)

/-- `streamDatasetItems(db, w, opts)` from export.go: the type switch for an
items-kind dataset. -/
def streamDatasetItems (env : Env) (opts : ExportOptions) : List OutRec × Option String :=
  if opts.typ == "pairs" then streamPairsFromDatasetItems env opts
  else if opts.typ == "items" then streamDatasetItemsRaw env opts
  else if opts.typ == "items_with_meta" then streamDatasetItemsWithMeta env opts
  else ([], some ("unknown export type for items dataset: " ++ opts.typ))

/-- `strings.EqualFold`, restricted to case folding (the only use is against
the all-ASCII literal `"items"`). -/
def eqFold (a b : String) : Bool :=
  strToLower a == strToLower b

/-- The final type switch of `StreamExport` (reached when no items-kind
dataset intercepted the request). -/
def streamCore (env : Env) (opts : ExportOptions) : List OutRec × Option String :=
  if opts.typ == "pairs" then streamPairs env opts
  else if opts.typ == "conversations" then streamConversations env opts
  else ([], some ("unknown export type: " ++ opts.typ))

/-- `StreamExport(ctx, db, w, opts)` from export.go: apply the empty-field
defaults for type, split and status; resolve the dataset kind when a
concrete dataset id is given (routing items-kind datasets to the item
modes); otherwise dispatch on the type. -/
def StreamExport (env : Env) (opts0 : ExportOptions) : List OutRec × Option String :=
  let opts :=
    { opts0 with
      typ := if opts0.typ == "" then "pairs" else opts0.typ
      split := if opts0.split == "" then "train" else opts0.split
      status := if opts0.status == "" then "approved" else opts0.status }
  if opts.datasetID > 0 then
    match env.getDataset opts.datasetID with
    | none => ([], some "dataset not found")
    | some ds =>
      if eqFold ds.kind "items" then streamDatasetItems env opts
      else streamCore env opts
  else streamCore env opts

/-! ## Reference definitions transcribed from the specification's wording

These follow the spec/claim text (not the Go control flow) and are compared
against the source-derived functions above. -/

/-- Spec wording: "the nearest preceding user-role message", i.e. the
largest index `j < i` whose message has role `user`. -/
def nearestPrecedingUser (msgs : List Message) (i : Nat) : Option Nat :=
  ((List.range i).filter fun j => roleAt msgs j == "user").getLast?

/-- Claim C1's description of the pair deriver under `context = none`,
exactly as stated: every assistant message with non-empty trimmed content
that has a preceding user message yields the pair (trimmed content of the
nearest preceding user message, trimmed assistant content) — with no further
condition on the prompt. -/
def derivePairsSpecC1 (msgs : List Message) : List ExportPair :=
  (List.range msgs.length).filterMap fun i =>
    if roleAt msgs i == "assistant" && trimSpace (contentAt msgs i) != "" then
      (nearestPrecedingUser msgs i).map fun u =>
        ⟨trimSpace (contentAt msgs u), trimSpace (contentAt msgs i)⟩
    else none

/-- Claim C1 amended: additionally, an assistant message whose nearest
preceding user message trims to the empty string yields nothing (the
deriver discards pairs with an empty prompt). -/
def derivePairsSpecC1Amended (msgs : List Message) : List ExportPair :=
  (List.range msgs.length).filterMap fun i =>
    if roleAt msgs i == "assistant" && trimSpace (contentAt msgs i) != "" then
      (nearestPrecedingUser msgs i).bind fun u =>
        if trimSpace (contentAt msgs u) == "" then none
        else some ⟨trimSpace (contentAt msgs u), trimSpace (contentAt msgs i)⟩
    else none

/-- User-role message indices in the prefix `0..j` (inclusive), ascending. -/
def usersUpTo (msgs : List Message) (j : Nat) : List Nat :=
  (List.range (j + 1)).filter fun i => roleAt msgs i == "user"

/-- Claim C2's description of the selected range's start: index `0` when
`contextTurns = 0` or when fewer than `contextTurns` user messages exist in
the prefix, otherwise the index of the `contextTurns`-th user message
counting backward from `uptoIndex` inclusive. -/
def specStart (msgs : List Message) (uptoIndex contextTurns : Nat) : Nat :=
  if contextTurns = 0 then 0
  else if (usersUpTo msgs uptoIndex).length < contextTurns then 0
  else (((usersUpTo msgs uptoIndex).reverse).get? (contextTurns - 1)).getD 0

/-- Claim C2's retention test: system messages are skipped unless
`includeSystem`, and messages with empty trimmed content are skipped
regardless of role. -/
def specKeep (msgs : List Message) (includeSystem : Bool) (i : Nat) : Bool :=
  (roleAt msgs i != "system" || includeSystem) && trimSpace (contentAt msgs i) != ""

/-- Claim C2's role prefixes: `"System: "`, `"User: "` or `"Assistant: "`
matching the message's role. -/
def specLabel (r : String) : String :=
  if r == "system" then "System: "
  else if r == "user" then "User: "
  else "Assistant: "

/-- Claim C2's line for one retained message: its trimmed content, prefixed
with the role label when `useLabels`. -/
def specLine (msgs : List Message) (useLabels : Bool) (i : Nat) : String :=
  (if useLabels then specLabel (roleAt msgs i) else "") ++ trimSpace (contentAt msgs i)

/-- Claim C2's reference renderer: the retained lines of the selected range,
joined by single newlines with no leading or trailing blank lines (empty
when everything is filtered out). -/
def renderContextSpec (msgs : List Message) (uptoIndex : Nat) (includeSystem : Bool)
    (contextTurns : Nat) (useLabels : Bool) : String :=
  let start := specStart msgs uptoIndex contextTurns
  String.intercalate "\n"
    (((List.range' start (uptoIndex + 1 - start)).filter (specKeep msgs includeSystem)).map
      (specLine msgs useLabels))

/-- The builder join of `renderBody`, abstracted over an already-computed
list of lines (proof helper). -/
def joinFold (ls : List String) : String :=
  ls.foldl (fun b l => if b == "" then l else b ++ "\n" ++ l) ""

/-- The contiguous index range selected by `renderContext`: from the
computed start index through `userIdx` inclusive. -/
def selectedIdxs (msgs : List Message) (userIdx contextTurns : Nat) : List Nat :=
  List.range' (ctxStart msgs userIdx contextTurns)
    (userIdx + 1 - ctxStart msgs userIdx contextTurns)

/-- The indices whose messages actually contribute a line to the rendered
prompt: the selected range minus the skipped messages. -/
def retainedIdxs (msgs : List Message) (userIdx : Nat) (includeSystem : Bool)
    (contextTurns : Nat) : List Nat :=
  (selectedIdxs msgs userIdx contextTurns).filter (eligible msgs includeSystem)

/-- Number of user turns among a list of message indices. -/
def userTurnCount (msgs : List Message) (l : List Nat) : Nat :=
  l.countP fun t => roleAt msgs t == "user"

/-! ## Lemmas -/

theorem usersUpTo_zero (msgs : List Message) :
    usersUpTo msgs 0 = if roleAt msgs 0 == "user" then [0] else [] := by
  simp [usersUpTo, List.range_succ, List.filter_singleton]

theorem usersUpTo_succ (msgs : List Message) (j : Nat) :
    usersUpTo msgs (j + 1) =
      usersUpTo msgs j ++ (if roleAt msgs (j + 1) == "user" then [j + 1] else []) := by
  simp only [usersUpTo, List.range_succ, List.filter_append, List.filter_singleton]
  by_cases h : roleAt msgs (j + 1) == "user" <;> simp [h]

/-- The backward walk of `renderContext` breaks exactly at the `need`-th user
message counting backward from `j` inclusive (`-1` when fewer than `need`
user messages exist in `0..j`). -/
theorem ctxStartAux_eq (msgs : List Message) :
    ∀ j need, 1 ≤ need →
      ctxStartAux msgs need j =
        match ((usersUpTo msgs j).reverse).get? (need - 1) with
        | some i => (i : Int)
        | none => -1 := by
  intro j
  induction j with
  | zero =>
    intro need h1
    rw [ctxStartAux, usersUpTo_zero]
    by_cases hu : roleAt msgs 0 == "user"
    · match need, h1 with
      | 1, _ => simp [hu]
      | n + 2, _ => simp [hu, List.get?]
    · simp [hu]
  | succ j ih =>
    intro need h1
    rw [ctxStartAux, usersUpTo_succ]
    by_cases hu : roleAt msgs (j + 1) == "user"
    · match need, h1 with
      | 1, _ => simp [hu]
      | n + 2, _ =>
        have := ih (n + 1) (by omega)
        simp only [hu, if_true, List.reverse_append, List.reverse_cons, List.reverse_nil,
          List.nil_append, List.cons_append, List.get?] at this ⊢
        simpa using this
    · have := ih need h1
      simp only [hu, if_false, List.append_nil] at this ⊢
      simpa [ctxStartAux, hu] using this

/-- The backward scan of `findPrevRole` finds exactly the last index below
the bound carrying the requested role. -/
theorem findPrevRole_eq (msgs : List Message) (r : String) (i : Nat) :
    findPrevRole msgs i r = ((List.range i).filter fun j => roleAt msgs j == r).getLast? := by
  induction i with
  | zero => simp [findPrevRole]
  | succ n ih =>
    rw [List.range_succ, List.filter_append]
    by_cases h : roleAt msgs n == r
    · simp [findPrevRole, h]
    · simp [findPrevRole, h, ih]

/-- The loop-computed start index equals the spec's description of it. -/
theorem ctxStart_eq_specStart (msgs : List Message) (u k : Nat) :
    ctxStart msgs u k = specStart msgs u k := by
  unfold ctxStart specStart
  by_cases hk : k = 0
  · simp [hk]
  · have h1 : 1 ≤ k := Nat.one_le_iff_ne_zero.mpr hk
    rw [if_pos (Nat.pos_of_ne_zero hk), if_neg hk, ctxStartAux_eq msgs u k h1]
    cases hg : ((usersUpTo msgs u).reverse).get? (k - 1) with
    | none =>
      have hlen : (usersUpTo msgs u).length ≤ k - 1 := by
        have := List.get?_eq_none.mp hg
        simpa using this
      rw [if_pos (show (usersUpTo msgs u).length < k by omega)]
      show (if (0 : Int) < -1 then ((-1 : Int)).toNat else 0) = 0
      decide
    | some i =>
      have hlt : k - 1 < (usersUpTo msgs u).length := by
        obtain ⟨hlt', _⟩ := List.get?_eq_some.mp hg
        simpa using hlt'
      rw [if_neg (show ¬(usersUpTo msgs u).length < k by omega)]
      show (if (0 : Int) < (i : Int) then ((i : Int)).toNat else 0) = (some i).getD 0
      rw [Option.getD_some]
      by_cases hi : 0 < i
      · rw [if_pos (by exact_mod_cast hi)]
        simp
      · have hi0 : i = 0 := by omega
        subst hi0
        simp

/-- Each eligible index is in range and its line is non-empty, whatever the
role style. -/
theorem lineOf_ne_empty (msgs : List Message) (includeSystem : Bool) (style : String)
    (i : Nat) (h : eligible msgs includeSystem i = true) :
    lineOf msgs style i ≠ "" := by
  cases hm : msgs.get? i with
  | none =>
    exfalso
    unfold eligible at h
    rw [hm] at h
    exact absurd h (by simp)
  | some m =>
    have h' : (!(m.role == "system" && !includeSystem) && !(trimSpace m.content == "")) = true := by
      unfold eligible at h
      rw [hm] at h
      exact h
    have ht : trimSpace m.content ≠ "" := by
      intro hc
      rw [hc] at h'
      simp at h'
    have hcontent : contentAt msgs i = m.content := by
      unfold contentAt
      rw [hm]
      rfl
    unfold lineOf
    by_cases hs : style == "plain"
    · rw [if_pos hs, hcontent]
      exact ht
    · rw [if_neg hs, hcontent]
      intro hc
      have h2 : (roleLabel (roleAt msgs i)).data ++ (trimSpace m.content).data = ([] : List Char) :=
        congrArg String.data hc
      have h3 : (roleLabel (roleAt msgs i)).data ≠ [] := by
        unfold roleLabel
        by_cases h4 : roleAt msgs i == "system"
        · rw [if_pos h4]; decide
        · rw [if_neg h4]
          by_cases h5 : roleAt msgs i == "assistant"
          · rw [if_pos h5]; decide
          · rw [if_neg h5]; decide
      exact h3 (List.append_eq_nil.mp h2).1

/-- The rendering loop over a list of indices equals the builder join of the
lines of the eligible indices. -/
theorem renderBody_eq_joinFold (msgs : List Message) (includeSystem : Bool) (style : String) :
    ∀ (idxs : List Nat) (b : String),
      idxs.foldl
          (fun b i =>
            if eligible msgs includeSystem i then
              if b == "" then lineOf msgs style i else b ++ "\n" ++ lineOf msgs style i
            else b)
          b =
        ((idxs.filter (eligible msgs includeSystem)).map (lineOf msgs style)).foldl
          (fun b l => if b == "" then l else b ++ "\n" ++ l) b := by
  intro idxs
  induction idxs with
  | nil => intro b; rfl
  | cons i rest ih =>
    intro b
    by_cases he : eligible msgs includeSystem i
    · simp only [List.foldl_cons, List.filter_cons, he, if_true, List.map_cons, ih]
    · simp only [List.foldl_cons, List.filter_cons, he, Bool.false_eq_true, if_false, ih]

theorem append_newline_ne_empty (a l : String) : a ++ "\n" ++ l ≠ "" := by
  intro hc
  have h2 : (a.data ++ ['\n']) ++ l.data = ([] : List Char) := congrArg String.data hc
  simp at h2

/-- The builder join of a list of non-empty lines is exactly intercalation
with a newline. -/
theorem joinFold_eq_intercalate (ls : List String) (h : ∀ l ∈ ls, l ≠ "") :
    joinFold ls = String.intercalate "\n" ls := by
  cases ls with
  | nil => rfl
  | cons a rest =>
    have go_eq : ∀ (rest : List String) (acc : String), acc ≠ "" →
        rest.foldl (fun b l => if b == "" then l else b ++ "\n" ++ l) acc =
          String.intercalate.go acc "\n" rest := by
      intro rest
      induction rest with
      | nil => intro acc _; rfl
      | cons l rest ih =>
        intro acc hacc
        rw [List.foldl_cons, String.intercalate.go, if_neg (by simpa using hacc)]
        exact ih (acc ++ "\n" ++ l) (append_newline_ne_empty acc l)
    have ha : a ≠ "" := h a (List.mem_cons_self a rest)
    show (a :: rest).foldl (fun b l => if b == "" then l else b ++ "\n" ++ l) "" =
      String.intercalate "\n" (a :: rest)
    rw [List.foldl_cons, if_pos (show (("" : String) == "") = true from rfl),
      String.intercalate]
    exact go_eq rest a ha

/-- `renderBody` over any index list is the newline-intercalation of the
lines of its eligible indices. -/
theorem renderBody_eq_intercalate (msgs : List Message) (includeSystem : Bool)
    (style : String) (idxs : List Nat) :
    renderBody msgs includeSystem style idxs =
      String.intercalate "\n"
        ((idxs.filter (eligible msgs includeSystem)).map (lineOf msgs style)) := by
  unfold renderBody
  rw [renderBody_eq_joinFold]
  apply joinFold_eq_intercalate
  intro l hl
  obtain ⟨i, hi, rfl⟩ := List.mem_map.mp hl
  exact lineOf_ne_empty msgs includeSystem style i (List.mem_filter.mp hi).2

/-- The skip test of the Go loop coincides with the spec's retention test. -/
theorem eligible_eq_specKeep (msgs : List Message) (includeSystem : Bool) (i : Nat) :
    eligible msgs includeSystem i = specKeep msgs includeSystem i := by
  cases hm : msgs.get? i with
  | none =>
    have hc : contentAt msgs i = "" := by
      unfold contentAt; rw [hm]; rfl
    have hlhs : eligible msgs includeSystem i = false := by
      unfold eligible; rw [hm]
    rw [hlhs]
    unfold specKeep
    rw [hc, show trimSpace "" = "" from rfl]
    simp
  | some m =>
    have hc : contentAt msgs i = m.content := by
      unfold contentAt; rw [hm]; rfl
    have hr : roleAt msgs i = m.role := by
      unfold roleAt; rw [hm]; rfl
    have hlhs : eligible msgs includeSystem i =
        (!(m.role == "system" && !includeSystem) && !(trimSpace m.content == "")) := by
      unfold eligible; rw [hm]
    rw [hlhs]
    unfold specKeep
    rw [hc, hr]
    cases hs : m.role == "system" <;> cases includeSystem <;>
      cases ht : trimSpace m.content == "" <;> simp [bne, hs, ht]

/-- Splitting off the last element of an inclusive index range. -/
theorem range'_split_last (j : Nat) :
    ∀ i, i ≤ j + 1 →
      List.range' i (j + 1 + 1 - i) = List.range' i (j + 1 - i) ++ [j + 1] := by
  intro i hij
  have h2 : j + 1 + 1 - i = (j + 1 - i) + 1 := by omega
  have h3 : i + 1 * (j + 1 - i) = j + 1 := by omega
  rw [h2, List.range'_concat, h3]

/-- Counting characterisation of the backward walk: when it breaks at an
index `i`, the inclusive range `i..j` holds exactly `need` user messages;
when it runs out (negative result), the whole prefix `0..j` holds fewer than
`need`. -/
theorem ctxStartAux_count (msgs : List Message) :
    ∀ j need, 1 ≤ need →
      (∀ i : Nat, ctxStartAux msgs need j = (i : Int) →
          i ≤ j ∧ (List.range' i (j + 1 - i)).countP (fun t => roleAt msgs t == "user") = need) ∧
        (∀ n : Nat, ctxStartAux msgs need j = Int.negSucc n →
          (List.range' 0 (j + 1)).countP (fun t => roleAt msgs t == "user") < need) := by
  intro j
  induction j with
  | zero =>
    intro need h1
    by_cases hu : roleAt msgs 0 == "user"
    · by_cases hn : need ≤ 1
      · have hneed : need = 1 := by omega
        subst hneed
        constructor
        · intro i hi
          have hi0 : i = 0 := by
            have : ((0 : Nat) : Int) = (i : Int) := by
              simpa [ctxStartAux, hu] using hi
            omega
          subst hi0
          refine ⟨Nat.le_refl 0, ?_⟩
          simp [List.range', List.countP_cons, hu]
        · intro n hn2
          have : ((0 : Nat) : Int) = Int.negSucc n := by
            simpa [ctxStartAux, hu] using hn2
          rw [Int.negSucc_eq] at this
          omega
      · constructor
        · intro i hi
          have : (-1 : Int) = (i : Int) := by
            simpa [ctxStartAux, hu, decide_eq_false hn] using hi
          omega
        · intro n _
          have : (List.range' 0 (0 + 1)).countP (fun t => roleAt msgs t == "user") = 1 := by
            simp [List.range', List.countP_cons, hu]
          omega
    · constructor
      · intro i hi
        have : (-1 : Int) = (i : Int) := by
          simpa [ctxStartAux, hu] using hi
        omega
      · intro n _
        have : (List.range' 0 (0 + 1)).countP (fun t => roleAt msgs t == "user") = 0 := by
          simp [List.range', List.countP_cons, hu]
        omega
  | succ j ih =>
    intro need h1
    by_cases hu : roleAt msgs (j + 1) == "user"
    · by_cases hn : need ≤ 1
      · have hneed : need = 1 := by omega
        subst hneed
        constructor
        · intro i hi
          have hij : j + 1 = i := by
            have : ((j + 1 : Nat) : Int) = (i : Int) := by
              simpa [ctxStartAux, hu] using hi
            omega
          subst hij
          refine ⟨Nat.le_refl _, ?_⟩
          have : j + 1 + 1 - (j + 1) = 1 := by omega
          rw [this]
          simp [List.range', List.countP_cons, hu]
        · intro n hn2
          have : ((j + 1 : Nat) : Int) = Int.negSucc n := by
            simpa [ctxStartAux, hu] using hn2
          rw [Int.negSucc_eq] at this
          omega
      · have hrec : ctxStartAux msgs need (j + 1) = ctxStartAux msgs (need - 1) j := by
          rw [ctxStartAux]
          simp [hu, decide_eq_false hn]
        obtain ⟨ihl, ihr⟩ := ih (need - 1) (by omega)
        constructor
        · intro i hi
          rw [hrec] at hi
          obtain ⟨hij, hcount⟩ := ihl i hi
          refine ⟨by omega, ?_⟩
          rw [range'_split_last j i (by omega), List.countP_append]
          simp [List.countP_cons, hu]
          omega
        · intro n hn2
          rw [hrec] at hn2
          have := ihr n hn2
          have hsplit0 := range'_split_last j 0 (by omega)
          simp only [Nat.sub_zero] at hsplit0
          rw [hsplit0, List.countP_append]
          simp [List.countP_cons, hu]
          omega
    · have hrec : ctxStartAux msgs need (j + 1) = ctxStartAux msgs need j := by
        rw [ctxStartAux]
        simp [hu]
      obtain ⟨ihl, ihr⟩ := ih need h1
      constructor
      · intro i hi
        rw [hrec] at hi
        obtain ⟨hij, hcount⟩ := ihl i hi
        refine ⟨by omega, ?_⟩
        rw [range'_split_last j i (by omega), List.countP_append]
        simp [List.countP_cons, hu]
        omega
      · intro n hn2
        rw [hrec] at hn2
        have := ihr n hn2
        have hsplit0 := range'_split_last j 0 (by omega)
        simp only [Nat.sub_zero] at hsplit0
        rw [hsplit0, List.countP_append]
        simp [List.countP_cons, hu]
        omega

/-- With a positive window size `k`, the selected range never holds more
than `k` user messages. -/
theorem selected_userTurnCount_le (msgs : List Message) (u k : Nat) (hk : 1 ≤ k) :
    userTurnCount msgs (selectedIdxs msgs u k) ≤ k := by
  simp only [userTurnCount, selectedIdxs, ctxStart]
  rw [if_pos (show 0 < k by omega)]
  obtain ⟨h1, h2⟩ := ctxStartAux_count msgs u k hk
  cases hj : ctxStartAux msgs k u with
  | ofNat i =>
    obtain ⟨hij, hcount⟩ := h1 i hj
    have hstart : (if (0 : Int) < Int.ofNat i then (Int.ofNat i).toNat else 0) = i := by
      by_cases hp : 0 < i
      · rw [if_pos (show (0 : Int) < Int.ofNat i from Int.ofNat_pos.mpr hp)]
        simp
      · have hi0 : i = 0 := by omega
        subst hi0
        simp
    rw [hstart]
    exact Nat.le_of_eq hcount
  | negSucc n =>
    have hneg : ¬(0 : Int) < Int.negSucc n := by
      rw [Int.negSucc_eq]
      omega
    rw [if_neg hneg]
    have := h2 n hj
    simpa using Nat.le_of_lt this

/-- Dropping filtered-out indices cannot increase the user-turn count. -/
theorem retained_le_selected (msgs : List Message) (u k : Nat) (includeSystem : Bool) :
    userTurnCount msgs (retainedIdxs msgs u includeSystem k) ≤
      userTurnCount msgs (selectedIdxs msgs u k) := by
  simp only [userTurnCount, retainedIdxs]
  rw [List.countP_filter]
  apply List.countP_mono_left
  intro a _ h
  exact (Bool.and_elim_left h)

/-- `renderContext` renders exactly the lines of the retained indices. -/
theorem renderContext_eq_intercalate (msgs : List Message) (u : Nat) (includeSystem : Bool)
    (k : Nat) (style : String) :
    renderContext msgs u includeSystem k style =
      String.intercalate "\n" ((retainedIdxs msgs u includeSystem k).map (lineOf msgs style)) := by
  simp only [renderContext, retainedIdxs, selectedIdxs]
  exact renderBody_eq_intercalate msgs includeSystem style _

/-- With `contextTurns = 0` the selected range is the full prefix `0..u`,
so the retained indices are all eligible indices up to `u`. -/
theorem retainedIdxs_zero (msgs : List Message) (u : Nat) (includeSystem : Bool) :
    retainedIdxs msgs u includeSystem 0 =
      (List.range (u + 1)).filter (eligible msgs includeSystem) := by
  simp only [retainedIdxs, selectedIdxs, ctxStart]
  rw [List.range_eq_range']
  simp

/-! ## Claims -/

/-- C1 counterexample: on `[user:"  ", assistant:"A"]` with `context=none`
the claim's exact description emits the pair `("","A")` (the trimmed content
of the nearest preceding user message is empty but the claim emits the pair
regardless), while `derivePairs` emits nothing. -/
theorem C1_counterexample :
    derivePairs [⟨"user", "  "⟩, ⟨"assistant", "A"⟩] { context := "none" } = [] ∧
      derivePairsSpecC1 [⟨"user", "  "⟩, ⟨"assistant", "A"⟩] = [⟨"", "A"⟩] := by
  decide

/-- C1 (amended): with `context = none`, `derivePairs` emits exactly the
pairs described by the claim further restricted to assistant messages whose
nearest preceding user message has non-empty trimmed content. -/
theorem C1_theorem (msgs : List Message) (opts : ExportOptions)
    (h : opts.context = "none") :
    derivePairs msgs opts = derivePairsSpecC1Amended msgs := by
  unfold derivePairs derivePairsSpecC1Amended
  rw [h]
  apply List.filterMap_congr
  intro i _
  simp only [findPrevRole_eq, nearestPrecedingUser]
  by_cases ha : roleAt msgs i = "assistant"
  · by_cases he : trimSpace (contentAt msgs i) = ""
    · simp [ha, he]
    · cases hnp : ((List.range i).filter fun j => roleAt msgs j == "user").getLast? with
      | none => simp [ha, he, hnp]
      | some u => simp [ha, he, hnp]
  · simp [ha]

/-- C2: for every message list using the three documented roles, every
`uptoIndex`, `includeSystem` and `contextTurns`, the Context Renderer's
output equals the claim's reference definition, for both role styles. -/
theorem C2_theorem (msgs : List Message) (uptoIndex contextTurns : Nat)
    (includeSystem : Bool)
    (hroles : ∀ m ∈ msgs, m.role = "system" ∨ m.role = "user" ∨ m.role = "assistant") :
    renderContext msgs uptoIndex includeSystem contextTurns "labels" =
        renderContextSpec msgs uptoIndex includeSystem contextTurns true ∧
      renderContext msgs uptoIndex includeSystem contextTurns "plain" =
        renderContextSpec msgs uptoIndex includeSystem contextTurns false := by
  have hfilter : ∀ s n,
      (List.range' s n).filter (eligible msgs includeSystem) =
        (List.range' s n).filter (specKeep msgs includeSystem) := fun s n =>
    List.filter_congr fun i _ => eligible_eq_specKeep msgs includeSystem i
  constructor
  · simp only [renderContext, renderContextSpec]
    rw [ctxStart_eq_specStart, renderBody_eq_intercalate, hfilter]
    apply congrArg (String.intercalate "\n")
    apply List.map_congr_left
    intro i hi
    have hk := (List.mem_filter.mp hi).2
    unfold specKeep at hk
    cases hm : msgs.get? i with
    | none =>
      exfalso
      have hc : contentAt msgs i = "" := by
        unfold contentAt; rw [hm]; rfl
      rw [hc, show trimSpace "" = "" from rfl] at hk
      simp at hk
    | some m =>
      have hr : roleAt msgs i = m.role := by
        unfold roleAt; rw [hm]; rfl
      have hmem : m ∈ msgs := List.get?_mem hm
      rcases hroles m hmem with h | h | h <;>
        simp [lineOf, specLine, roleLabel, specLabel, hr, h]
  · simp only [renderContext, renderContextSpec]
    rw [ctxStart_eq_specStart, renderBody_eq_intercalate, hfilter]
    apply congrArg (String.intercalate "\n")
    apply List.map_congr_left
    intro i _
    simp [lineOf, specLine]

/-- C2 witness: the renderer/reference agreement at a concrete conversation
and window. -/
theorem C2_witness :
    renderContext [⟨"system", "S"⟩, ⟨"user", "Q1"⟩, ⟨"assistant", "A1"⟩, ⟨"user", "Q2"⟩]
          3 false 1 "labels" =
        renderContextSpec [⟨"system", "S"⟩, ⟨"user", "Q1"⟩, ⟨"assistant", "A1"⟩, ⟨"user", "Q2"⟩]
          3 false 1 true ∧
      renderContext [⟨"system", "S"⟩, ⟨"user", "Q1"⟩, ⟨"assistant", "A1"⟩, ⟨"user", "Q2"⟩]
          3 false 1 "plain" =
        renderContextSpec [⟨"system", "S"⟩, ⟨"user", "Q1"⟩, ⟨"assistant", "A1"⟩, ⟨"user", "Q2"⟩]
          3 false 1 false :=
  C2_theorem _ 3 1 false (by decide)

/-- C7 counterexample: with `context=window` and `context_turns = 0` the
deriver renders the full history, so the emitted prompt for
`[user:"Q", assistant:"A"]` draws on one retained user turn — more than
`k = 0` — falsifying "at most k distinct user turns" for `k = 0`. -/
theorem C7_counterexample :
    derivePairs [⟨"user", "Q"⟩, ⟨"assistant", "A"⟩]
          { context := "window", contextTurns := 0 } =
        [⟨"User: Q", "A"⟩] ∧
      userTurnCount [⟨"user", "Q"⟩, ⟨"assistant", "A"⟩]
          (retainedIdxs [⟨"user", "Q"⟩, ⟨"assistant", "A"⟩] 0 false 0) = 1 := by
  decide

/-- C7 (amended): for `context=window` with `context_turns = k ≥ 1`, every
emitted prompt is the rendering of a retained index set holding at most `k`
user turns; for `context=full`, every emitted prompt is the rendering of all
eligible indices from `0` through the paired user message.  (For `k = 0`,
window mode renders the full history instead — see the counterexample.) -/
theorem C7_theorem (msgs : List Message) (opts : ExportOptions) (p : ExportPair) :
    (opts.context = "window" → 1 ≤ opts.contextTurns → p ∈ derivePairs msgs opts →
        ∃ u, p.user = String.intercalate "\n"
              ((retainedIdxs msgs u opts.includeSystem opts.contextTurns).map
                (lineOf msgs (if opts.roleStyle == "" then "labels" else opts.roleStyle))) ∧
          userTurnCount msgs (retainedIdxs msgs u opts.includeSystem opts.contextTurns) ≤
            opts.contextTurns) ∧
      (opts.context = "full" → p ∈ derivePairs msgs opts →
        ∃ u, p.user = String.intercalate "\n"
              ((retainedIdxs msgs u opts.includeSystem 0).map
                (lineOf msgs (if opts.roleStyle == "" then "labels" else opts.roleStyle))) ∧
          retainedIdxs msgs u opts.includeSystem 0 =
            (List.range (u + 1)).filter (eligible msgs opts.includeSystem)) := by
  constructor
  · intro hw hk hp
    simp only [derivePairs, hw] at hp
    rw [List.mem_filterMap] at hp
    obtain ⟨i, _, hf⟩ := hp
    simp only [show ((if ("window" : String) == "" then "none" else "window") == "none") = false
        from rfl,
      show ((if ("window" : String) == "" then "none" else "window") == "window") = true
        from rfl,
      Bool.false_eq_true, if_false, if_true] at hf
    by_cases ha : roleAt msgs i == "assistant"
    · rw [if_pos ha] at hf
      by_cases he : trimSpace (contentAt msgs i) == ""
      · rw [if_pos he] at hf
        exact absurd hf (by simp)
      · rw [if_neg he] at hf
        cases hu : findPrevRole msgs i "user" with
        | none =>
          rw [hu] at hf
          exact absurd hf (by simp)
        | some u =>
          rw [hu] at hf
          have hf2 : (if renderContext msgs u opts.includeSystem opts.contextTurns
                (if opts.roleStyle == "" then "labels" else opts.roleStyle) == "" then none
              else some (ExportPair.mk
                (renderContext msgs u opts.includeSystem opts.contextTurns
                  (if opts.roleStyle == "" then "labels" else opts.roleStyle))
                (trimSpace (contentAt msgs i)))) = some p := hf
          by_cases hpe : renderContext msgs u opts.includeSystem opts.contextTurns
              (if opts.roleStyle == "" then "labels" else opts.roleStyle) == ""
          · rw [if_pos hpe] at hf2
            exact absurd hf2 (by simp)
          · rw [if_neg hpe] at hf2
            have hp' : ExportPair.mk
                (renderContext msgs u opts.includeSystem opts.contextTurns
                  (if opts.roleStyle == "" then "labels" else opts.roleStyle))
                (trimSpace (contentAt msgs i)) = p := Option.some.inj hf2
            refine ⟨u, ?_, ?_⟩
            · rw [← hp']
              exact renderContext_eq_intercalate msgs u opts.includeSystem opts.contextTurns _
            · exact Nat.le_trans (retained_le_selected msgs u opts.contextTurns opts.includeSystem)
                (selected_userTurnCount_le msgs u opts.contextTurns hk)
    · rw [if_neg ha] at hf
      exact absurd hf (by simp)
  · intro hw hp
    simp only [derivePairs, hw] at hp
    rw [List.mem_filterMap] at hp
    obtain ⟨i, _, hf⟩ := hp
    simp only [show ((if ("full" : String) == "" then "none" else "full") == "none") = false
        from rfl,
      show ((if ("full" : String) == "" then "none" else "full") == "window") = false
        from rfl,
      show ((if ("full" : String) == "" then "none" else "full") == "full") = true
        from rfl,
      Bool.false_eq_true, if_false, if_true] at hf
    by_cases ha : roleAt msgs i == "assistant"
    · rw [if_pos ha] at hf
      by_cases he : trimSpace (contentAt msgs i) == ""
      · rw [if_pos he] at hf
        exact absurd hf (by simp)
      · rw [if_neg he] at hf
        cases hu : findPrevRole msgs i "user" with
        | none =>
          rw [hu] at hf
          exact absurd hf (by simp)
        | some u =>
          rw [hu] at hf
          have hf2 : (if renderContext msgs u opts.includeSystem 0
                (if opts.roleStyle == "" then "labels" else opts.roleStyle) == "" then none
              else some (ExportPair.mk
                (renderContext msgs u opts.includeSystem 0
                  (if opts.roleStyle == "" then "labels" else opts.roleStyle))
                (trimSpace (contentAt msgs i)))) = some p := hf
          by_cases hpe : renderContext msgs u opts.includeSystem 0
              (if opts.roleStyle == "" then "labels" else opts.roleStyle) == ""
          · rw [if_pos hpe] at hf2
            exact absurd hf2 (by simp)
          · rw [if_neg hpe] at hf2
            have hp' : ExportPair.mk
                (renderContext msgs u opts.includeSystem 0
                  (if opts.roleStyle == "" then "labels" else opts.roleStyle))
                (trimSpace (contentAt msgs i)) = p := Option.some.inj hf2
            refine ⟨u, ?_, ?_⟩
            · rw [← hp']
              exact renderContext_eq_intercalate msgs u opts.includeSystem 0 _
            · exact retainedIdxs_zero msgs u opts.includeSystem
    · rw [if_neg ha] at hf
      exact absurd hf (by simp)

/-- C7 witness: both modes exercised on a two-turn conversation. -/
theorem C7_witness :
    (∃ u, (ExportPair.mk "User: Q2" "A2").user = String.intercalate "\n"
          ((retainedIdxs [⟨"user", "Q1"⟩, ⟨"assistant", "A1"⟩, ⟨"user", "Q2"⟩, ⟨"assistant", "A2"⟩]
              u false 1).map
            (lineOf [⟨"user", "Q1"⟩, ⟨"assistant", "A1"⟩, ⟨"user", "Q2"⟩, ⟨"assistant", "A2"⟩]
              "labels")) ∧
        userTurnCount [⟨"user", "Q1"⟩, ⟨"assistant", "A1"⟩, ⟨"user", "Q2"⟩, ⟨"assistant", "A2"⟩]
            (retainedIdxs [⟨"user", "Q1"⟩, ⟨"assistant", "A1"⟩, ⟨"user", "Q2"⟩, ⟨"assistant", "A2"⟩]
              u false 1) ≤ 1) ∧
      (∃ u, (ExportPair.mk "User: Q1\nAssistant: A1\nUser: Q2" "A2").user =
          String.intercalate "\n"
            ((retainedIdxs [⟨"user", "Q1"⟩, ⟨"assistant", "A1"⟩, ⟨"user", "Q2"⟩, ⟨"assistant", "A2"⟩]
                u false 0).map
              (lineOf [⟨"user", "Q1"⟩, ⟨"assistant", "A1"⟩, ⟨"user", "Q2"⟩, ⟨"assistant", "A2"⟩]
                "labels")) ∧
        retainedIdxs [⟨"user", "Q1"⟩, ⟨"assistant", "A1"⟩, ⟨"user", "Q2"⟩, ⟨"assistant", "A2"⟩]
            u false 0 =
          (List.range (u + 1)).filter
            (eligible [⟨"user", "Q1"⟩, ⟨"assistant", "A1"⟩, ⟨"user", "Q2"⟩, ⟨"assistant", "A2"⟩]
              false)) :=
  have h1 := C7_theorem [⟨"user", "Q1"⟩, ⟨"assistant", "A1"⟩, ⟨"user", "Q2"⟩,
    ⟨"assistant", "A2"⟩] { context := "window", contextTurns := 1 } ⟨"User: Q2", "A2"⟩
  have h2 := C7_theorem [⟨"user", "Q1"⟩, ⟨"assistant", "A1"⟩, ⟨"user", "Q2"⟩,
    ⟨"assistant", "A2"⟩] { context := "full" } ⟨"User: Q1\nAssistant: A1\nUser: Q2", "A2"⟩
  ⟨h1.1 rfl (by decide) (by decide), h2.2 rfl (by decide)⟩

/-- C1 witness: the consecutive-assistant list of the claim yields, through
the amended description, exactly the two pairs sharing one prompt. -/
theorem C1_witness :
    derivePairs [⟨"user", "Q"⟩, ⟨"assistant", "A1"⟩, ⟨"assistant", "A2"⟩] { context := "none" } =
        derivePairsSpecC1Amended [⟨"user", "Q"⟩, ⟨"assistant", "A1"⟩, ⟨"assistant", "A2"⟩] ∧
      derivePairsSpecC1Amended [⟨"user", "Q"⟩, ⟨"assistant", "A1"⟩, ⟨"assistant", "A2"⟩] =
        [⟨"Q", "A1"⟩, ⟨"Q", "A2"⟩] :=
  ⟨C1_theorem _ _ rfl, by decide⟩

/-- C10: any `Context` value outside `none`/`window`/`full` (the empty
string included) makes `derivePairs` behave exactly as `context = none`;
no failure is possible (the function is total). -/
theorem C10_theorem (msgs : List Message) (opts : ExportOptions)
    (h1 : opts.context ≠ "none") (h2 : opts.context ≠ "window") (h3 : opts.context ≠ "full") :
    derivePairs msgs opts = derivePairs msgs { opts with context := "none" } := by
  simp only [derivePairs]
  apply List.filterMap_congr
  intro i _
  by_cases hc : opts.context = ""
  · simp [hc]
  · have e1 : (opts.context == "") = false := by simp [hc]
    have e2 : (opts.context == "none") = false := by simp [h1]
    have e3 : (opts.context == "window") = false := by simp [h2]
    have e4 : (opts.context == "full") = false := by simp [h3]
    simp [e1, e2, e3, e4]

/-- C10 witness: a nonsense context value reproduces the `none` behaviour. -/
theorem C10_witness :
    derivePairs [⟨"user", "Q"⟩, ⟨"assistant", "A"⟩] { context := "weird" } =
      derivePairs [⟨"user", "Q"⟩, ⟨"assistant", "A"⟩] { context := "none" } :=
  C10_theorem _ { context := "weird" } (by decide) (by decide) (by decide)

/-- C6 counterexample: the engine does not default `context_turns` to 6.  On
seven user turns with `context=window` and `ContextTurns` left at its zero
value, the emitted prompt is the full history, not the 6-turn window that
supplying the documented default yields. -/
theorem C6_counterexample :
    derivePairs
        [⟨"user", "u1"⟩, ⟨"user", "u2"⟩, ⟨"user", "u3"⟩, ⟨"user", "u4"⟩, ⟨"user", "u5"⟩,
          ⟨"user", "u6"⟩, ⟨"user", "u7"⟩, ⟨"assistant", "A"⟩]
        { context := "window" } ≠
      derivePairs
        [⟨"user", "u1"⟩, ⟨"user", "u2"⟩, ⟨"user", "u3"⟩, ⟨"user", "u4"⟩, ⟨"user", "u5"⟩,
          ⟨"user", "u6"⟩, ⟨"user", "u7"⟩, ⟨"assistant", "A"⟩]
        { context := "window", contextTurns := 6 } := by
  decide

/-- C6 (amended): the engine-applied defaults are `type=pairs`,
`split=train`, `status=approved`, `context=none` and `role_style=labels`;
`context_turns` has no engine-level default — left at zero under
`context=window` it renders the full history, exactly as `context=full`
(the 6-turn default is applied by the HTTP handler outside the engine). -/
theorem C6_theorem (env : Env) (msgs : List Message) (opts : ExportOptions) :
    StreamExport env { opts with typ := "" } = StreamExport env { opts with typ := "pairs" } ∧
      StreamExport env { opts with split := "" } =
        StreamExport env { opts with split := "train" } ∧
      StreamExport env { opts with status := "" } =
        StreamExport env { opts with status := "approved" } ∧
      derivePairs msgs { opts with context := "" } =
        derivePairs msgs { opts with context := "none" } ∧
      derivePairs msgs { opts with roleStyle := "" } =
        derivePairs msgs { opts with roleStyle := "labels" } ∧
      derivePairs msgs { opts with context := "window", contextTurns := 0 } =
        derivePairs msgs { opts with context := "full", contextTurns := 0 } :=
  ⟨rfl, rfl, rfl, rfl, rfl, rfl⟩

/-- C4: an item object whose `user` and `assistant` keys decode to strings
that trim non-empty yields exactly the one pair of their trimmed values —
regardless of any `messages` key. -/
theorem C4_theorem (fields : List (String × Json)) (opts : ExportOptions)
    (uv av : Json) (u a : String)
    (hu : lookupField fields "user" = some uv)
    (ha : lookupField fields "assistant" = some av)
    (hdu : decodeGoString uv = some u)
    (hda : decodeGoString av = some a)
    (htu : trimSpace u ≠ "") (hta : trimSpace a ≠ "") :
    derivePairsFromItemData (some (.obj fields)) opts = [⟨trimSpace u, trimSpace a⟩] := by
  simp [derivePairsFromItemData, singleTurnPair, hu, ha, hdu, hda, htu, hta]

/-- C4 witness: the single-turn shape wins even with a `messages` key also
present. -/
theorem C4_witness :
    derivePairsFromItemData
        (some (.obj [("user", .str " U "), ("assistant", .str "A"),
          ("messages", .arr [.obj [("role", .str "user"), ("content", .str "M")]])]))
        {} = [⟨"U", "A"⟩] :=
  C4_theorem _ {} (.str " U ") (.str "A") " U " "A" rfl rfl rfl rfl (by decide) (by decide)

/-- C8: invalid JSON, non-object JSON, and objects matching neither
recognised shape (a malformed or empty `messages` array included) all yield
the empty pair list; no failure is possible (the function is total). -/
theorem C8_theorem (opts : ExportOptions) (v : Json) (fields : List (String × Json))
    (hnotobj : ∀ fs, v ≠ .obj fs)
    (hsingle : singleTurnPair fields = none)
    (hmsgs : ∀ mv, lookupField fields "messages" = some mv →
      decodeMessages mv = none ∨ decodeMessages mv = some []) :
    derivePairsFromItemData none opts = [] ∧
      derivePairsFromItemData (some v) opts = [] ∧
      derivePairsFromItemData (some (.obj fields)) opts = [] := by
  refine ⟨rfl, ?_, ?_⟩
  · cases v with
    | obj fs => exact absurd rfl (hnotobj fs)
    | null => rfl
    | bool b => rfl
    | num => rfl
    | str s => rfl
    | arr xs => rfl
  · show (match singleTurnPair fields with
        | some p => [p]
        | none =>
          match lookupField fields "messages" with
          | none => []
          | some mv =>
            match decodeMessages mv with
            | none => []
            | some [] => []
            | some msgs => derivePairs msgs opts) = []
    rw [hsingle]
    show (match lookupField fields "messages" with
        | none => []
        | some mv =>
          match decodeMessages mv with
          | none => []
          | some [] => []
          | some msgs => derivePairs msgs opts) = []
    cases hm : lookupField fields "messages" with
    | none => rfl
    | some mv =>
      show (match decodeMessages mv with
          | none => []
          | some [] => []
          | some msgs => derivePairs msgs opts) = []
      rcases hmsgs mv hm with h | h <;> rw [h]

/-- C8 witness: the spec's non-object example plus an object with a
malformed `messages` value. -/
theorem C8_witness :
    derivePairsFromItemData none {} = [] ∧
      derivePairsFromItemData (some (.arr [.str "not", .str "an", .str "object"])) {} = [] ∧
      derivePairsFromItemData
        (some (.obj [("user", .str "U"), ("messages", .str "oops")])) {} = [] :=
  C8_theorem {} (.arr [.str "not", .str "an", .str "object"])
    [("user", .str "U"), ("messages", .str "oops")]
    (fun fs h => Json.noConfusion h) rfl
    (by
      intro mv h
      have h2 : some (Json.str "oops") = some mv := h
      cases h2
      exact Or.inl rfl)

/-- C9: when `user`/`assistant` are present but do not form a valid
single-turn pair, a non-empty decodable `messages` key is used instead. -/
theorem C9_theorem (fields : List (String × Json)) (opts : ExportOptions)
    (uv av mv : Json) (msgs : List Message)
    (hu : lookupField fields "user" = some uv)
    (ha : lookupField fields "assistant" = some av)
    (hbad : ∀ u, decodeGoString uv = some u → ∀ a, decodeGoString av = some a →
      trimSpace u = "" ∨ trimSpace a = "")
    (hm : lookupField fields "messages" = some mv)
    (hdec : decodeMessages mv = some msgs)
    (hne : msgs ≠ []) :
    derivePairsFromItemData (some (.obj fields)) opts = derivePairs msgs opts := by
  have hst : singleTurnPair fields = none := by
    unfold singleTurnPair
    rw [hu, Option.some_bind, ha, Option.some_bind]
    cases hdu : decodeGoString uv with
    | none => rfl
    | some u =>
      rw [Option.some_bind]
      cases hda : decodeGoString av with
      | none => rfl
      | some a =>
        rw [Option.some_bind]
        rcases hbad u hdu a hda with h | h <;> simp [h]
  show (match singleTurnPair fields with
      | some p => [p]
      | none =>
        match lookupField fields "messages" with
        | none => []
        | some mv =>
          match decodeMessages mv with
          | none => []
          | some [] => []
          | some msgs => derivePairs msgs opts) = derivePairs msgs opts
  rw [hst]
  show (match lookupField fields "messages" with
      | none => []
      | some mv =>
        match decodeMessages mv with
        | none => []
        | some [] => []
        | some msgs => derivePairs msgs opts) = derivePairs msgs opts
  rw [hm]
  show (match decodeMessages mv with
      | none => []
      | some [] => []
      | some ms => derivePairs ms opts) = derivePairs msgs opts
  rw [hdec]
  cases msgs with
  | nil => exact absurd rfl hne
  | cons x xs => rfl

/-- C9 witness: a numeric `user` value defeats the single-turn shape, so the
`messages` sequence is derived instead. -/
theorem C9_witness :
    derivePairsFromItemData
        (some (.obj [("user", .num), ("assistant", .str "A"),
          ("messages", .arr [.obj [("role", .str "user"), ("content", .str "Q")],
            .obj [("role", .str "assistant"), ("content", .str "R")]])]))
        {} = derivePairs [⟨"user", "Q"⟩, ⟨"assistant", "R"⟩] {} :=
  C9_theorem _ {} .num (.str "A") _ _
    rfl rfl (fun u h => Option.noConfusion h) rfl rfl (by decide)

/-- Without a cap, the inner pair-emission loop writes every pair and never
stops the stream. -/
theorem emitPairsCapped_zero (ps : List ExportPair) : ∀ count,
    emitPairsCapped 0 ps count = (ps.map OutRec.pair, count + ps.length, false) := by
  induction ps with
  | nil => intro count; simp [emitPairsCapped]
  | cons p ps ih =>
    intro count
    simp [emitPairsCapped, capReached, ih (count + 1)]
    omega

/-- With a cap `N` not yet reached, the inner loop either writes all pairs
(when they fit) or writes exactly the pairs up to the cap and stops. -/
theorem emitPairsCapped_pos (N : Nat) (ps : List ExportPair) : ∀ count, count < N →
    (ps.length < N - count →
        emitPairsCapped N ps count = (ps.map OutRec.pair, count + ps.length, false)) ∧
      (N - count ≤ ps.length →
        emitPairsCapped N ps count = ((ps.take (N - count)).map OutRec.pair, N, true)) := by
  induction ps with
  | nil =>
    intro count hc
    refine ⟨fun _ => by simp [emitPairsCapped], fun h => ?_⟩
    exfalso
    simp at h
    omega
  | cons p ps ih =>
    intro count hc
    by_cases hcap : count + 1 = N
    · have hcapb : capReached N (count + 1) = true := by
        simp [capReached]
        omega
      refine ⟨fun h => ?_, fun _ => ?_⟩
      · exfalso
        simp at h
        omega
      · have h1 : N - count = 1 := by omega
        have ht : (p :: ps).take 1 = [p] := rfl
        simp only [emitPairsCapped]
        rw [if_pos hcapb, h1, ht, hcap]
        rfl
    · have hcapb : ¬capReached N (count + 1) = true := by
        simp [capReached]
        omega
      obtain ⟨ih1, ih2⟩ := ih (count + 1) (by omega)
      refine ⟨fun h => ?_, fun h => ?_⟩
      · have hr := ih1 (by simp at h; omega)
        simp only [emitPairsCapped]
        rw [if_neg hcapb, hr]
        simp only [List.map_cons, List.length_cons, Prod.mk.injEq]
        refine ⟨trivial, by omega, trivial⟩
      · have hr := ih2 (by simp at h; omega)
        have h1 : N - count = (N - (count + 1)) + 1 := by omega
        simp only [emitPairsCapped]
        rw [if_neg hcapb, hr, h1, List.take_succ_cons]
        rfl

/-- Without a cap, the pairs mode emits every derivable pair of every
fetched conversation, in order. -/
theorem streamPairsGo_zero (opts : ExportOptions) (h : opts.maxExamples = 0) :
    ∀ rows count,
      streamPairsGo opts rows count =
        (rows.flatMap fun c => derivePairs c.messages opts).map OutRec.pair := by
  intro rows
  induction rows with
  | nil => intro count; simp [streamPairsGo]
  | cons c rest ih =>
    intro count
    rw [streamPairsGo, h]
    rw [emitPairsCapped_zero (derivePairs c.messages opts) count]
    simp [List.flatMap_cons, ih (count + (derivePairs c.messages opts).length)]

/-- With cap `N` and `count` pairs already emitted, the pairs mode emits
exactly the next `N - count` derivable pairs. -/
theorem streamPairsGo_take (opts : ExportOptions) (N : Nat) (h : opts.maxExamples = N) :
    ∀ rows count, count < N →
      streamPairsGo opts rows count =
        ((rows.flatMap fun c => derivePairs c.messages opts).take (N - count)).map
          OutRec.pair := by
  intro rows
  induction rows with
  | nil => intro count _; simp [streamPairsGo]
  | cons c rest ih =>
    intro count hc
    rw [streamPairsGo, h]
    obtain ⟨h1, h2⟩ := emitPairsCapped_pos N (derivePairs c.messages opts) count hc
    by_cases hfit : (derivePairs c.messages opts).length < N - count
    · rw [h1 hfit]
      simp only [List.flatMap_cons, List.take_append_eq_append_take,
        List.take_all_of_le (Nat.le_of_lt hfit), List.map_append]
      rw [ih (count + (derivePairs c.messages opts).length) (by omega)]
      have : N - count - (derivePairs c.messages opts).length =
          N - (count + (derivePairs c.messages opts).length) := by omega
      simp [this]
    · rw [h2 (by omega)]
      simp only [List.flatMap_cons, List.take_append_eq_append_take]
      have : N - count - (derivePairs c.messages opts).length = 0 := by omega
      simp [this]

/-- Without a cap, the conversations mode emits one record per fetched row. -/
theorem streamConvsGo_zero (opts : ExportOptions) (h : opts.maxExamples = 0) :
    ∀ rows count, streamConvsGo opts rows count = rows.map convRecord := by
  intro rows
  induction rows with
  | nil => intro count; rfl
  | cons c rest ih =>
    intro count
    rw [streamConvsGo, h]
    simp [capReached, ih (count + 1)]

/-- With cap `N` and `count` records already emitted, the conversations mode
emits exactly the next `N - count` rows. -/
theorem streamConvsGo_take (opts : ExportOptions) (N : Nat) (h : opts.maxExamples = N) :
    ∀ rows count, count < N →
      streamConvsGo opts rows count = (rows.take (N - count)).map convRecord := by
  intro rows
  induction rows with
  | nil => intro count _; simp [streamConvsGo]
  | cons c rest ih =>
    intro count hc
    rw [streamConvsGo, h]
    by_cases hcap : count + 1 = N
    · have hcapb : capReached N (count + 1) = true := by
        simp [capReached]
        omega
      have h1 : N - count = 1 := by omega
      simp [hcapb, h1, List.take_succ_cons]
    · have hcapb : capReached N (count + 1) = false := by
        simp [capReached]
        omega
      have h1 : N - count = (N - (count + 1)) + 1 := by omega
      rw [hcapb]
      simp only [Bool.false_eq_true, if_false, ih (count + 1) (by omega), h1,
        List.take_succ_cons, List.map_cons]

/-- C3: with `max_examples = N > 0`, the pairs stream and the conversations
stream each emit exactly the first `N` records of the corresponding
uncapped run — so their length is `min N totalDerivable`, where the
uncapped pairs run is exactly the concatenation of every conversation's
derived pairs. -/
theorem C3_theorem (env : Env) (opts : ExportOptions) (N : Nat) (hN : 0 < N) :
    ((streamPairs env { opts with maxExamples := N }).1 =
        ((streamPairs env { opts with maxExamples := 0 }).1).take N ∧
      ((streamPairs env { opts with maxExamples := N }).1).length =
        min N ((streamPairs env { opts with maxExamples := 0 }).1).length ∧
      (streamPairs env { opts with maxExamples := 0 }).1 =
        ((convQuery env opts).flatMap fun c =>
          (derivePairs c.messages opts).map OutRec.pair)) ∧
    ((streamConversations env { opts with maxExamples := N }).1 =
        ((streamConversations env { opts with maxExamples := 0 }).1).take N ∧
      ((streamConversations env { opts with maxExamples := N }).1).length =
        min N ((streamConversations env { opts with maxExamples := 0 }).1).length) := by
  have hcapped : (streamPairs env { opts with maxExamples := N }).1 =
      (((convQuery env opts).flatMap fun c => derivePairs c.messages opts).take N).map
        OutRec.pair := by
    have := streamPairsGo_take { opts with maxExamples := N } N rfl
      (convQuery env { opts with maxExamples := N }) 0 hN
    simpa using this
  have huncapped : (streamPairs env { opts with maxExamples := 0 }).1 =
      ((convQuery env opts).flatMap fun c => derivePairs c.messages opts).map OutRec.pair := by
    have := streamPairsGo_zero { opts with maxExamples := 0 } rfl
      (convQuery env { opts with maxExamples := 0 }) 0
    simpa using this
  have hccapped : (streamConversations env { opts with maxExamples := N }).1 =
      ((convQuery env opts).take N).map convRecord := by
    have := streamConvsGo_take { opts with maxExamples := N } N rfl
      (convQuery env { opts with maxExamples := N }) 0 hN
    simpa using this
  have hcuncapped : (streamConversations env { opts with maxExamples := 0 }).1 =
      (convQuery env opts).map convRecord := by
    exact streamConvsGo_zero { opts with maxExamples := 0 } rfl
      (convQuery env { opts with maxExamples := 0 }) 0
  refine ⟨⟨?_, ?_, ?_⟩, ?_, ?_⟩
  · rw [hcapped, huncapped, List.map_take]
  · rw [hcapped, huncapped]
    simp [List.length_take]
  · rw [huncapped]
    simp [List.map_flatMap]
  · rw [hccapped, hcuncapped, List.map_take]
  · rw [hccapped, hcuncapped]
    simp [List.length_take]

/-- C3 witness: one stored conversation deriving two pairs, capped at one. -/
theorem C3_witness :
    ((streamPairs
          (Env.mk (fun _ => none)
            [ConvRow.mk 1 0 "" "" [] "" "" [⟨"user", "Q"⟩, ⟨"assistant", "A1"⟩,
              ⟨"assistant", "A2"⟩]] [])
          { maxExamples := 1 }).1 =
        ((streamPairs
            (Env.mk (fun _ => none)
              [ConvRow.mk 1 0 "" "" [] "" "" [⟨"user", "Q"⟩, ⟨"assistant", "A1"⟩,
                ⟨"assistant", "A2"⟩]] [])
            { maxExamples := 0 }).1).take 1 ∧
      ((streamPairs
          (Env.mk (fun _ => none)
            [ConvRow.mk 1 0 "" "" [] "" "" [⟨"user", "Q"⟩, ⟨"assistant", "A1"⟩,
              ⟨"assistant", "A2"⟩]] [])
          { maxExamples := 1 }).1).length =
        min 1 ((streamPairs
            (Env.mk (fun _ => none)
              [ConvRow.mk 1 0 "" "" [] "" "" [⟨"user", "Q"⟩, ⟨"assistant", "A1"⟩,
                ⟨"assistant", "A2"⟩]] [])
            { maxExamples := 0 }).1).length ∧
      (streamPairs
          (Env.mk (fun _ => none)
            [ConvRow.mk 1 0 "" "" [] "" "" [⟨"user", "Q"⟩, ⟨"assistant", "A1"⟩,
              ⟨"assistant", "A2"⟩]] [])
          { maxExamples := 0 }).1 =
        ((convQuery
            (Env.mk (fun _ => none)
              [ConvRow.mk 1 0 "" "" [] "" "" [⟨"user", "Q"⟩, ⟨"assistant", "A1"⟩,
                ⟨"assistant", "A2"⟩]] [])
            {}).flatMap fun c => (derivePairs c.messages {}).map OutRec.pair)) ∧
    ((streamConversations
          (Env.mk (fun _ => none)
            [ConvRow.mk 1 0 "" "" [] "" "" [⟨"user", "Q"⟩, ⟨"assistant", "A1"⟩,
              ⟨"assistant", "A2"⟩]] [])
          { maxExamples := 1 }).1 =
        ((streamConversations
            (Env.mk (fun _ => none)
              [ConvRow.mk 1 0 "" "" [] "" "" [⟨"user", "Q"⟩, ⟨"assistant", "A1"⟩,
                ⟨"assistant", "A2"⟩]] [])
            { maxExamples := 0 }).1).take 1 ∧
      ((streamConversations
          (Env.mk (fun _ => none)
            [ConvRow.mk 1 0 "" "" [] "" "" [⟨"user", "Q"⟩, ⟨"assistant", "A1"⟩,
              ⟨"assistant", "A2"⟩]] [])
          { maxExamples := 1 }).1).length =
        min 1 ((streamConversations
            (Env.mk (fun _ => none)
              [ConvRow.mk 1 0 "" "" [] "" "" [⟨"user", "Q"⟩, ⟨"assistant", "A1"⟩,
                ⟨"assistant", "A2"⟩]] [])
            { maxExamples := 0 }).1).length) :=
  C3_theorem
    (Env.mk (fun _ => none)
      [ConvRow.mk 1 0 "" "" [] "" "" [⟨"user", "Q"⟩, ⟨"assistant", "A1"⟩,
        ⟨"assistant", "A2"⟩]] [])
    {} 1 (by decide)

/-- C5: illegal type/kind combinations fail with nothing written to the
sink: `conversations` against an items-kind dataset, and `items` or
`items_with_meta` whenever no items-kind dataset is resolved (no concrete
dataset id, or a dataset of another kind). -/
theorem C5_theorem (env : Env) (opts : ExportOptions) :
    (opts.typ = "conversations" → 0 < opts.datasetID →
      ∀ ds, env.getDataset opts.datasetID = some ds → eqFold ds.kind "items" = true →
        (StreamExport env opts).1 = [] ∧ (StreamExport env opts).2.isSome = true) ∧
    ((opts.typ = "items" ∨ opts.typ = "items_with_meta") →
      (opts.datasetID ≤ 0 ∨
        ∃ ds, env.getDataset opts.datasetID = some ds ∧ eqFold ds.kind "items" = false) →
      (StreamExport env opts).1 = [] ∧ (StreamExport env opts).2.isSome = true) := by
  constructor
  · intro h1 h2 ds h3 h4
    simp [StreamExport, streamDatasetItems, streamCore, h1, h2, h3, h4]
  · intro hty hres
    by_cases hgt : 0 < opts.datasetID
    · rcases hres with hneg | ⟨ds, h3, h4⟩
      · omega
      · rcases hty with h | h <;>
          simp [StreamExport, streamDatasetItems, streamCore, h, hgt, h3, h4]
    · rcases hty with h | h <;>
        simp [StreamExport, streamCore, h, hgt]

/-- C5 witness: `conversations` against an items dataset, and `items`
without a dataset id, both fail with an empty output. -/
theorem C5_witness :
    ((StreamExport (Env.mk (fun i => if i = 1 then some ⟨"items"⟩ else none) [] [])
          { typ := "conversations", datasetID := 1 }).1 = [] ∧
      (StreamExport (Env.mk (fun i => if i = 1 then some ⟨"items"⟩ else none) [] [])
          { typ := "conversations", datasetID := 1 }).2.isSome = true) ∧
    ((StreamExport (Env.mk (fun _ => none) [] []) { typ := "items" }).1 = [] ∧
      (StreamExport (Env.mk (fun _ => none) [] []) { typ := "items" }).2.isSome = true) :=
  ⟨(C5_theorem (Env.mk (fun i => if i = 1 then some ⟨"items"⟩ else none) [] [])
        { typ := "conversations", datasetID := 1 }).1
      rfl (by decide) ⟨"items"⟩ rfl (by decide),
    (C5_theorem (Env.mk (fun _ => none) [] []) { typ := "items" }).2
      (Or.inl rfl) (Or.inl (by decide))⟩

end Datalab
